import Mathlib

/-
Shallow embedding of the core of the s3-ext repository (src/error.rs,
src/iter.rs, src/upload.rs).

The S3 client is modelled as an explicit environment: for the multipart
upload orchestrator the environment fixes the outcome of the create /
upload-part / complete / abort calls and of the successive reads from the
byte source; for the listing iterators the environment is the list of
responses that successive list-objects-v2 calls return, consumed in order.
Every function additionally returns the trace of S3 calls it issued, so
that claims about which calls are made (abort issued, no part uploaded,
get-object issued) are statable.
-/

/- ===================== Error model (src/error.rs) ===================== -/

/-- Mirrors the S3Ext error enum of src/error.rs.  Service-level Rusoto
errors carry no structure the library inspects, so they are modelled as
numeric codes. -/
inductive S3ExtError where
  | Other (msg : String)
  | IoError (code : Nat)
  | CompleteMultipartUploadError (code : Nat)
  | CreateMultipartUploadError (code : Nat)
  | GetObjectError (code : Nat)
  | HttpDispatchError (code : Nat)
  | ListObjectV2Error (code : Nat)
  | PutObjectError (code : Nat)
  | UploadPartError (code : Nat)
deriving DecidableEq, Repr

/-- Error of a raw list-objects-v2 call (RusotoError of ListObjectsV2Error).
The extra constructor marks the model boundary where the finite response
environment provides no further page; it never occurs under the
wellformedness hypotheses of the theorems below. -/
inductive ListErr where
  | rusoto (code : Nat)
  | noResponse
deriving DecidableEq, Repr

/-- Conversion applied by the question-mark operator in iter.rs when a
listing error is returned from a context producing S3ExtResult. -/
def ListErr.toS3Ext : ListErr → S3ExtError
  | .rusoto code => .ListObjectV2Error code
  | .noResponse => .Other "model: out of responses"

/- ===================== Data model (rusoto shapes) ===================== -/

/-- Fields of rusoto Object that the library reads or forwards. -/
structure Object where
  key : Option String
  e_tag : Option String
  size : Option Int
  last_modified : Option String
deriving DecidableEq, Repr

/-- Fields of ListObjectsV2Request used by iter.rs.  The source field
named "prefix" is rendered here as key_prefix. -/
structure ListObjectsV2Request where
  bucket : String
  key_prefix : Option String
  max_keys : Option Nat
  continuation_token : Option String
deriving DecidableEq, Repr

/-- Fields of ListObjectsV2Output read by iter.rs. -/
structure ListObjectsV2Output where
  contents : Option (List Object)
  next_continuation_token : Option String
deriving DecidableEq, Repr

/-- The entries of a page; `contents.unwrap_or_else(Vec::new)`. -/
def ListObjectsV2Output.entries (p : ListObjectsV2Output) : List Object :=
  p.contents.getD []

structure GetObjectRequest where
  bucket : String
  key : String
deriving DecidableEq, Repr

/-- Fields of GetObjectOutput relevant to the model (pass-through data,
never inspected by the library). -/
structure GetObjectOutput where
  body : Option (List Nat)
  e_tag : Option String
deriving DecidableEq, Repr

/-- Fields of PutObjectRequest that the multipart path reads. -/
structure PutObjectRequest where
  bucket : String
  key : String
  acl : Option String
  content_type : Option String
deriving DecidableEq, Repr

/-- rusoto CompletedPart. -/
structure CompletedPart where
  e_tag : Option String
  part_number : Option Nat
deriving DecidableEq, Repr

structure CompleteMultipartUploadOutput where
  location : Option String
  e_tag : Option String
deriving DecidableEq, Repr

/- ===================== Multipart upload (src/upload.rs) ===================== -/

/-- One S3 call issued by the upload orchestrator, as recorded in the
call trace. -/
inductive S3Call where
  | createMultipartUpload (bucket key : String)
  | uploadPart (partNumber : Nat) (body : List Nat)
  | completeMultipartUpload (parts : List CompletedPart)
  | abortMultipartUpload (uploadId : String)
deriving DecidableEq, Repr

/-- Environment fixing the behaviour of the S3 client and of the byte
source during one call of upload_multipart.

  reads: the outcome of the successive source.read calls; each entry is
  either an I/O error code or the bytes the read placed in the buffer
  (the buffer is then truncated to exactly those bytes, body.truncate,
  so a read result IS the uploaded body).  A read past the end of the
  list models a source that keeps reporting end of input (0 bytes). -/
structure UploadEnv where
  createResult : Except Nat (Option String)
  reads : List (Except Nat (List Nat))
  partResult : Nat → List Nat → Except Nat (Option String)
  completeResult : List CompletedPart → Except Nat CompleteMultipartUploadOutput
  abortResult : Except Nat Unit

/-- The read/upload-part loop of upload_multipart_needs_abort_on_error
(upload.rs lines 117-147): for part_number in 1.. read up to part_size
bytes; a 0-byte read breaks the loop; otherwise upload the bytes as the
next part and record the CompletedPart in order. -/
def uploadPartsLoop (up : Nat → List Nat → Except Nat (Option String)) :
    Nat → List CompletedPart → List (Except Nat (List Nat)) →
    List S3Call × Except S3ExtError (List CompletedPart)
  | _, parts, [] => ([], .ok parts)
  | _, _, .error e :: _ => ([], .error (.IoError e))
  | partNumber, parts, .ok body :: rest =>
    if body.isEmpty then ([], .ok parts)
    else
      match up partNumber body with
      | .error e => ([.uploadPart partNumber body], .error (.UploadPartError e))
      | .ok etag =>
        let next := uploadPartsLoop up (partNumber + 1)
          (parts ++ [{ e_tag := etag, part_number := some partNumber }]) rest
        (.uploadPart partNumber body :: next.1, next.2)

/-- upload.rs lines 107-160: run the part loop, then issue
complete_multipart_upload with the recorded parts. -/
def upload_multipart_needs_abort_on_error (env : UploadEnv) (target : PutObjectRequest)
    (uploadId : String) : List S3Call × Except S3ExtError CompleteMultipartUploadOutput :=
  let step := uploadPartsLoop env.partResult 1 [] env.reads
  match step.2 with
  | .error e => (step.1, .error e)
  | .ok parts =>
    match env.completeResult parts with
    | .error e => (step.1 ++ [.completeMultipartUpload parts], .error (.CompleteMultipartUploadError e))
    | .ok out => (step.1 ++ [.completeMultipartUpload parts], .ok out)

/-- upload.rs lines 24-104: create the multipart upload, fail with the
Other "Missing upload ID" error when the response has no upload id, run
the inner function, and on any error of the inner function issue
abort_multipart_upload for the obtained id; the outcome of the abort is
ignored (only logged) and the original error is returned. -/
def upload_multipart (env : UploadEnv) (target : PutObjectRequest) :
    List S3Call × Except S3ExtError CompleteMultipartUploadOutput :=
  match env.createResult with
  | .error e =>
    ([.createMultipartUpload target.bucket target.key], .error (.CreateMultipartUploadError e))
  | .ok none =>
    ([.createMultipartUpload target.bucket target.key], .error (.Other "Missing upload ID"))
  | .ok (some uploadId) =>
    let step := upload_multipart_needs_abort_on_error env target uploadId
    match step.2 with
    | .ok out => (.createMultipartUpload target.bucket target.key :: step.1, .ok out)
    | .error e =>
      (.createMultipartUpload target.bucket target.key :: step.1
        ++ [.abortMultipartUpload uploadId], .error e)

/- ===================== Spec-side helpers for the upload claims ===================== -/

/-- A source of byte list data that fills every read up to P bytes until
exhaustion delivers exactly these chunks (spec-side construction used to
phrase hypotheses; not part of the source). -/
def chunksOf (P : Nat) : List Nat → List (List Nat)
  | [] => []
  | a :: rest =>
    if _h : P = 0 then []
    else (a :: rest).take P :: chunksOf P ((a :: rest).drop P)
termination_by l => l.length
decreasing_by
  simp only [List.length_drop, List.length_cons]
  omega

/-- Map with an explicit running index, starting at i. -/
def mapFrom (f : Nat → α → β) : Nat → List α → List β
  | _, [] => []
  | i, a :: rest => f i a :: mapFrom f (i + 1) rest

/-- The list i, i+1, ..., i+n-1. -/
def natRangeFrom (i n : Nat) : List Nat :=
  (List.range n).map (i + ·)

/- ===================== Entry iterator (src/iter.rs, ObjectIter) ===================== -/

/-- State of ObjectIter (iter.rs lines 123-129); the S3Client handle is
modelled separately as the list of responses successive
list_objects_v2 calls return. -/
structure ObjectIter where
  request : ListObjectsV2Request
  objects : List Object
  exhausted : Bool
deriving DecidableEq, Repr

/-- The response environment of one iterator: the results of the
successive list_objects_v2 calls, consumed in order. -/
abbrev FetchResult := Except ListErr ListObjectsV2Output

/-- ObjectIter::new (iter.rs lines 132-146). -/
def ObjectIter.new (bucket : String) (pfx : Option String) : ObjectIter :=
  { request :=
      { bucket := bucket, key_prefix := pfx, max_keys := some 1000, continuation_token := none },
    objects := [], exhausted := false }

/-- ObjectIter::update_objects (iter.rs lines 154-160): replace the
buffer with the page contents; store a present next token into the
request, or mark the iterator exhausted when the token is absent. -/
def ObjectIter.update_objects (it : ObjectIter) (resp : ListObjectsV2Output) : ObjectIter :=
  let it2 := { it with objects := resp.entries }
  match resp.next_continuation_token with
  | some t => { it2 with request := { it2.request with continuation_token := some t } }
  | none => { it2 with exhausted := true }

/-- ObjectIter::next_objects (iter.rs lines 148-152): one
list_objects_v2 call, consuming the next response of the environment. -/
def ObjectIter.next_objects (it : ObjectIter) (env : List FetchResult) :
    Except ListErr (ObjectIter × List FetchResult) :=
  match env with
  | [] => .error .noResponse
  | .error e :: _ => .error e
  | .ok resp :: rest => .ok (it.update_objects resp, rest)

/-- ObjectIter::next_object (iter.rs lines 174-183): pull from the
buffer; if the buffer is empty and the iterator is not exhausted, fetch
exactly one page and return its first entry (or none). -/
def ObjectIter.next_object (it : ObjectIter) (env : List FetchResult) :
    Except ListErr (Option Object × ObjectIter × List FetchResult) :=
  match it.objects with
  | o :: os => .ok (some o, { it with objects := os }, env)
  | [] =>
    if it.exhausted then .ok (none, it, env)
    else
      match it.next_objects env with
      | .error e => .error e
      | .ok (it2, env2) =>
        match it2.objects with
        | o :: os => .ok (some o, { it2 with objects := os }, env2)
        | [] => .ok (none, it2, env2)

/-- Loop body of ObjectIter::last_internal (iter.rs lines 162-171);
objects holds the moved-out most recent non-empty buffer.  The fuel
counts remaining loop iterations; each iteration consumes one response,
so fuel = environment length makes the fuel bound exact (at fuel 0 the
environment is empty and the next fetch would fail with noResponse). -/
def ObjectIter.last_internal_aux :
    Nat → List Object → ObjectIter → List FetchResult → Except ListErr (Option Object)
  | 0, objects, it, _ =>
    if it.exhausted then .ok objects.getLast? else .error .noResponse
  | fuel + 1, objects, it, env =>
    if it.exhausted then .ok objects.getLast?
    else
      match it.next_objects env with
      | .error e => .error e
      | .ok (it2, env2) =>
        if it2.objects.length > 0 then
          ObjectIter.last_internal_aux fuel it2.objects { it2 with objects := [] } env2
        else
          ObjectIter.last_internal_aux fuel objects it2 env2

/-- ObjectIter::last_internal (iter.rs lines 162-171): move the current
buffer out, then fetch until exhausted, keeping the most recent
non-empty page; return the last entry of what was kept. -/
def ObjectIter.last_internal (it : ObjectIter) (env : List FetchResult) :
    Except ListErr (Option Object) :=
  ObjectIter.last_internal_aux env.length it.objects { it with objects := [] } env

/-- ObjectIter::last (iter.rs lines 196-198). -/
def ObjectIter.last (it : ObjectIter) (env : List FetchResult) :
    Except ListErr (Option Object) :=
  it.last_internal env

/-- Loop of ObjectIter::nth (iter.rs lines 201-210): while the buffered
count is at most n and the iterator is not exhausted, subtract the
buffered count from n and fetch the next page; finally index into the
buffer (IntoIter::nth consumes the first n+1 buffered entries).  Fuel
as in last_internal_aux. -/
def ObjectIter.nth_aux :
    Nat → Nat → ObjectIter → List FetchResult →
    Except ListErr (Option Object × ObjectIter × List FetchResult)
  | 0, n, it, env =>
    if it.objects.length ≤ n ∧ it.exhausted = false then .error .noResponse
    else .ok (it.objects[n]?, { it with objects := it.objects.drop (n + 1) }, env)
  | fuel + 1, n, it, env =>
    if it.objects.length ≤ n ∧ it.exhausted = false then
      match it.next_objects env with
      | .error e => .error e
      | .ok (it2, env2) => ObjectIter.nth_aux fuel (n - it.objects.length) it2 env2
    else
      .ok (it.objects[n]?, { it with objects := it.objects.drop (n + 1) }, env)

/-- ObjectIter::nth (iter.rs lines 201-210). -/
def ObjectIter.nth (it : ObjectIter) (n : Nat) (env : List FetchResult) :
    Except ListErr (Option Object × ObjectIter × List FetchResult) :=
  ObjectIter.nth_aux env.length n it env

/- ===================== Spec-side iteration harnesses ===================== -/

/-- Result of the (n+1)-th of n+1 successive next_object calls
(spec-side harness for the claims comparing nth with repeated
advance). -/
def advanceLast : Nat → ObjectIter → List FetchResult → Except ListErr (Option Object)
  | 0, it, env =>
    match it.next_object env with
    | .error e => .error e
    | .ok (o, _, _) => .ok o
  | m + 1, it, env =>
    match it.next_object env with
    | .error e => .error e
    | .ok (_, it2, env2) => advanceLast m it2 env2

/-- Repeatedly call next_object until it reports none, collecting the
yielded entries (spec-side harness; the fuel merely makes the harness
total and is irrelevant whenever it is large enough). -/
def drainAll : Nat → ObjectIter → List FetchResult → Except ListErr (List Object)
  | 0, _, _ => .error .noResponse
  | fuel + 1, it, env =>
    match it.next_object env with
    | .error e => .error e
    | .ok (none, _, _) => .ok []
    | .ok (some o, it2, env2) => (drainAll fuel it2 env2).map (o :: ·)

/-- Entries of a page sequence in delivery order. -/
def joinEntries (pages : List ListObjectsV2Output) : List Object :=
  (pages.map ListObjectsV2Output.entries).flatten

/-- A wellformed chain of responses: every non-final page carries a next
continuation token, the final page carries none. -/
inductive Chained : List ListObjectsV2Output → Prop where
  | single (p : ListObjectsV2Output) (hlast : p.next_continuation_token = none) : Chained [p]
  | cons (p : ListObjectsV2Output) (rest : List ListObjectsV2Output) (t : String)
      (htok : p.next_continuation_token = some t) (hrest : Chained rest) :
      Chained (p :: rest)

/-- A wellformed chain whose non-final pages are all non-empty (the
final page may be empty). -/
inductive ChainedNE : List ListObjectsV2Output → Prop where
  | single (p : ListObjectsV2Output) (hlast : p.next_continuation_token = none) : ChainedNE [p]
  | cons (p : ListObjectsV2Output) (rest : List ListObjectsV2Output) (t : String)
      (htok : p.next_continuation_token = some t) (hne : p.entries ≠ [])
      (hrest : ChainedNE rest) : ChainedNE (p :: rest)

/-- Comparison of listing entries by key, lexicographic over the key
characters (absent keys compare as the empty string); used to phrase
the ascending-order hypothesis. -/
def keyLe (a b : Object) : Prop :=
  (a.key.getD "").data ≤ (b.key.getD "").data

instance : DecidableRel keyLe := fun a b =>
  inferInstanceAs (Decidable ((a.key.getD "").data ≤ (b.key.getD "").data))

/- ===================== Object fetch overlay (src/iter.rs, GetObjectIter) ===================== -/

/-- State of GetObjectIter (iter.rs lines 288-291). -/
structure GetObjectIter where
  inner : ObjectIter
  bucket : String
deriving DecidableEq, Repr

/-- The get-object side of the client: result of a get_object call for a
given request (error codes model RusotoError of GetObjectError). -/
abbrev GetEnv := GetObjectRequest → Except Nat GetObjectOutput

/-- GetObjectIter::new (iter.rs lines 294-299). -/
def GetObjectIter.new (bucket : String) (pfx : Option String) : GetObjectIter :=
  { inner := ObjectIter.new bucket pfx, bucket := bucket }

/-- GetObjectIter::retrieve (iter.rs lines 301-325): for a present
entry, fail with Other "response is missing key" when the entry has no
key, otherwise issue one get_object call for the key and pair the key
with the retrieved object.  The first component is the list of
get-object requests issued. -/
def GetObjectIter.retrieve (g : GetObjectIter) (object : Option Object) (genv : GetEnv) :
    List GetObjectRequest × Except S3ExtError (Option (String × GetObjectOutput)) :=
  match object with
  | none => ([], .ok none)
  | some object =>
    match object.key with
    | none => ([], .error (.Other "response is missing key"))
    | some key =>
      let request : GetObjectRequest := { bucket := g.bucket, key := key }
      match genv request with
      | .ok o => ([request], .ok (some (request.key, o)))
      | .error e => ([request], .error (.GetObjectError e))

/-- GetObjectIter::retrieve_next (iter.rs lines 328-331): advance the
inner iterator, then retrieve.  Returns the issued get-object requests,
the result, and the successor state. -/
def GetObjectIter.retrieve_next (g : GetObjectIter) (env : List FetchResult) (genv : GetEnv) :
    List GetObjectRequest × Except S3ExtError (Option (String × GetObjectOutput))
      × GetObjectIter × List FetchResult :=
  match g.inner.next_object env with
  | .error e => ([], .error e.toS3Ext, g, env)
  | .ok (object, inner2, env2) =>
    let g2 := { g with inner := inner2 }
    let step := g2.retrieve object genv
    (step.1, step.2, g2, env2)

/- ===================== Streams (src/iter.rs, ObjectStream / GetObjectStream) ===================== -/

/-- Result of one poll step. -/
inductive PollOut (α : Type) where
  | pending
  | ready (val : Option α)
  | panicked
deriving DecidableEq, Repr

/-- State of ObjectStream (iter.rs lines 217-220): the iterator plus the
at most one in-flight page-fetch future, represented by the request it
was created with. -/
structure ObjectStream where
  iter : ObjectIter
  fut : Option ListObjectsV2Request
deriving DecidableEq, Repr

/-- ObjectStream::new (iter.rs lines 223-228). -/
def ObjectStream.new (bucket : String) (pfx : Option String) : ObjectStream :=
  { iter := ObjectIter.new bucket pfx, fut := none }

/-- The tail of ObjectStream::poll_next from line 269 on: poll the
in-flight fetch.  The oracle tells how that future behaves during this
poll: none means still pending, otherwise it resolves to the given
result. -/
def ObjectStream.pollPending (s : ObjectStream) (oracle : Option FetchResult) :
    PollOut (Except ListErr Object) × ObjectStream :=
  match oracle with
  | none => (.pending, s)
  | some (.error e) => (.ready (some (.error e)), { s with fut := none })
  | some (.ok resp) =>
    let it := s.iter.update_objects resp
    match it.objects with
    | o :: os => (.ready (some (.ok o)), { iter := { it with objects := os }, fut := none })
    | [] => (.ready none, { iter := it, fut := none })

/-- ObjectStream::poll_next (iter.rs lines 252-281): with no fetch in
flight, yield a buffered entry, or end the stream when exhausted, or
start a fetch with the current request; then poll the in-flight fetch,
replace the buffer with its page, and yield that page's first entry, or
end the stream when the page is empty. -/
def ObjectStream.poll_next (s : ObjectStream) (oracle : Option FetchResult) :
    PollOut (Except ListErr Object) × ObjectStream :=
  match s.fut with
  | some _ => s.pollPending oracle
  | none =>
    match s.iter.objects with
    | o :: os => (.ready (some (.ok o)), { s with iter := { s.iter with objects := os } })
    | [] =>
      if s.iter.exhausted then (.ready none, s)
      else ObjectStream.pollPending { s with fut := some s.iter.request } oracle

/-- State of GetObjectStream (iter.rs lines 364-370): at most one page
fetch (fut0) and at most one get-object fetch (fut1) in flight, each
represented by its request. -/
structure GetObjectStream where
  iter : GetObjectIter
  next : Option Object
  key : Option String
  fut0 : Option ListObjectsV2Request
  fut1 : Option GetObjectRequest
deriving DecidableEq, Repr

/-- GetObjectStream::new (iter.rs lines 373-381). -/
def GetObjectStream.new (bucket : String) (pfx : Option String) : GetObjectStream :=
  { iter := GetObjectIter.new bucket pfx, next := none, key := none, fut0 := none, fut1 := none }

/-- Behaviour of the in-flight futures during one poll of
GetObjectStream: none means the future stays pending. -/
structure GOSOracle where
  page : Option FetchResult
  obj : Option (Except Nat GetObjectOutput)

/-- Lines 470-482 of GetObjectStream::poll_next: assert that no page
fetch is in flight, then poll the get-object future; the final branch
panics when no get-object future exists. -/
def GetObjectStream.pollFut1 (s : GetObjectStream) (oc : GOSOracle) :
    PollOut (Except S3ExtError (String × GetObjectOutput)) × GetObjectStream :=
  if s.fut0.isSome then (.panicked, s)
  else
    match s.fut1 with
    | none => (.panicked, s)
    | some _ =>
      match oc.obj with
      | none => (.pending, s)
      | some (.error e) => (.ready (some (.error (.GetObjectError e))), { s with fut1 := none })
      | some (.ok o) =>
        match s.key with
        | some k => (.ready (some (.ok (k, o))), { s with fut1 := none, key := none })
        | none => (.panicked, { s with fut1 := none })

/-- Lines 452-468 of GetObjectStream::poll_next: take the pending
entry; fail when it has no key, otherwise remember the key and start
the get-object fetch; then continue with the get-object poll. -/
def GetObjectStream.pollGet (s : GetObjectStream) (oc : GOSOracle) :
    PollOut (Except S3ExtError (String × GetObjectOutput)) × GetObjectStream :=
  match s.next with
  | none => s.pollFut1 oc
  | some nxt =>
    match nxt.key with
    | none => (.ready (some (.error (.Other "response is missing key"))), { s with next := none })
    | some key =>
      GetObjectStream.pollFut1
        { s with next := none, key := some key,
                 fut1 := some { bucket := s.iter.bucket, key := key } } oc

/-- Lines 434-450 of GetObjectStream::poll_next: assert that not both
futures are in flight, then poll the page fetch when one is in flight,
replacing the buffer and taking the page's first entry (ending the
stream when the page is empty). -/
def GetObjectStream.pollTail (s : GetObjectStream) (oc : GOSOracle) :
    PollOut (Except S3ExtError (String × GetObjectOutput)) × GetObjectStream :=
  if s.fut0.isSome ∧ s.fut1.isSome then (.panicked, s)
  else
    match s.fut0 with
    | none => s.pollGet oc
    | some _ =>
      match oc.page with
      | none => (.pending, s)
      | some (.error e) => (.ready (some (.error e.toS3Ext)), { s with fut0 := none })
      | some (.ok resp) =>
        let inner := s.iter.inner.update_objects resp
        match inner.objects with
        | n :: rest =>
          GetObjectStream.pollGet
            { s with fut0 := none,
                     iter := { s.iter with inner := { inner with objects := rest } },
                     next := some n } oc
        | [] => (.ready none, { s with fut0 := none, iter := { s.iter with inner := inner } })

/-- GetObjectStream::poll_next (iter.rs lines 419-482). -/
def GetObjectStream.poll_next (s : GetObjectStream) (oc : GOSOracle) :
    PollOut (Except S3ExtError (String × GetObjectOutput)) × GetObjectStream :=
  if s.fut0.isNone ∧ s.fut1.isNone then
    match s.iter.inner.objects with
    | o :: os =>
      GetObjectStream.pollTail
        { s with iter := { s.iter with inner := { s.iter.inner with objects := os } },
                 next := some o } oc
    | [] =>
      if s.iter.inner.exhausted then (.ready none, s)
      else GetObjectStream.pollTail { s with fut0 := some s.iter.inner.request } oc
  else s.pollTail oc

/-- The single-in-flight invariant of GetObjectStream: a page fetch and
a get-object fetch are never simultaneously pending. -/
@[reducible] def GOSInv (s : GetObjectStream) : Prop :=
  ¬(s.fut0.isSome = true ∧ s.fut1.isSome = true) ∧
  (s.fut1.isSome = true → s.next = none)

/- ===================== Sample data for concrete instances ===================== -/

/-- A sample entry with key "a". -/
def objA : Object :=
  { key := some "a", e_tag := none, size := none, last_modified := none }

/-- A sample entry with key "b". -/
def objB : Object :=
  { key := some "b", e_tag := none, size := none, last_modified := none }

/-- A sample entry with key "c". -/
def objC : Object :=
  { key := some "c", e_tag := none, size := none, last_modified := none }

/-- A sample entry carrying no key. -/
def objNoKey : Object :=
  { key := none, e_tag := none, size := none, last_modified := none }

/-- An empty page that still carries a continuation token. -/
def pageEmptyTok : ListObjectsV2Output :=
  { contents := some [], next_continuation_token := some "tok" }

/-- A final page holding the single entry objA. -/
def pageAFinal : ListObjectsV2Output :=
  { contents := some [objA], next_continuation_token := none }

/- ===================== Shared concrete instances for witnesses ===================== -/

/-- A sample upload target. -/
def tgtSample : PutObjectRequest :=
  { bucket := "bucket", key := "key", acl := none, content_type := none }

/-- A sample completion output. -/
def outSample : CompleteMultipartUploadOutput :=
  { location := some "loc", e_tag := some "etag" }

/-- Upload environment whose source fails on the first read and whose
abort call itself fails. -/
def envReadFails : UploadEnv :=
  { createResult := .ok (some "uid"),
    reads := [.error 7],
    partResult := fun _ _ => .ok none,
    completeResult := fun _ => .ok outSample,
    abortResult := .error 3 }

/-- Upload environment whose create call succeeds without an upload id. -/
def envNoUploadId : UploadEnv :=
  { createResult := .ok none,
    reads := [.ok [1, 2], .ok []],
    partResult := fun _ _ => .ok none,
    completeResult := fun _ => .ok outSample,
    abortResult := .ok () }

/-- Upload environment for a 5-byte source read in chunks of 2. -/
def envFullSource : UploadEnv :=
  { createResult := .ok (some "uid"),
    reads := (chunksOf 2 [1, 2, 3, 4, 5]).map Except.ok,
    partResult := fun _ _ => .ok none,
    completeResult := fun _ => .ok outSample,
    abortResult := .ok () }

/- ===================== Theorems: multipart upload ===================== -/

/-- Helper: upload_multipart never inspects the outcome of the abort
call; the whole run is invariant under changing it. -/
theorem upload_multipart_ignores_abort_outcome (env : UploadEnv) (target : PutObjectRequest)
    (r : Except Nat Unit) :
    upload_multipart { env with abortResult := r } target = upload_multipart env target := by
  unfold upload_multipart
  have hc : ({ env with abortResult := r } : UploadEnv).createResult = env.createResult := rfl
  have hn : ∀ uid, upload_multipart_needs_abort_on_error { env with abortResult := r } target uid =
      upload_multipart_needs_abort_on_error env target uid := fun _ => rfl
  rw [hc]
  simp only [hn]

/-- Claim C1: when create-multipart succeeds with an upload id and a
later step fails (read, upload-part or complete error), upload_multipart
issues abort-multipart for that id, returns exactly the original
triggering error, and the outcome of the abort call never changes the
result. -/
theorem upload_multipart_abort_on_error (env : UploadEnv) (target : PutObjectRequest)
    (uploadId : String) (e : S3ExtError)
    (hcreate : env.createResult = .ok (some uploadId))
    (herr : (upload_multipart_needs_abort_on_error env target uploadId).2 = .error e) :
    (upload_multipart env target).2 = .error e ∧
    S3Call.abortMultipartUpload uploadId ∈ (upload_multipart env target).1 ∧
    ∀ r, upload_multipart { env with abortResult := r } target = upload_multipart env target := by
  have hmain : upload_multipart env target =
      (S3Call.createMultipartUpload target.bucket target.key ::
         (upload_multipart_needs_abort_on_error env target uploadId).1
         ++ [S3Call.abortMultipartUpload uploadId], .error e) := by
    unfold upload_multipart
    rw [hcreate]
    simp only [herr]
  refine ⟨by rw [hmain], by rw [hmain]; simp, fun r => upload_multipart_ignores_abort_outcome env target r⟩

/-- Witness for claim C1 at a concrete environment: the source errors on
the first read, the abort itself fails, and the caller still sees the
original I/O error together with the abort call in the trace. -/
theorem upload_multipart_abort_on_error_witness :
    (upload_multipart envReadFails tgtSample).2 = .error (.IoError 7) ∧
    S3Call.abortMultipartUpload "uid" ∈ (upload_multipart envReadFails tgtSample).1 :=
  ⟨(upload_multipart_abort_on_error envReadFails tgtSample "uid" (.IoError 7) rfl rfl).1,
   (upload_multipart_abort_on_error envReadFails tgtSample "uid" (.IoError 7) rfl rfl).2.1⟩

/-- Claim C7: when the create-multipart call succeeds but carries no
upload id, upload_multipart returns the Other "Missing upload ID" error
and the trace contains only the create call: no part upload, completion
or abort is attempted. -/
theorem upload_multipart_missing_upload_id (env : UploadEnv) (target : PutObjectRequest)
    (h : env.createResult = .ok none) :
    upload_multipart env target =
      ([S3Call.createMultipartUpload target.bucket target.key],
       .error (.Other "Missing upload ID")) := by
  unfold upload_multipart
  rw [h]

/-- Witness for claim C7 at a concrete environment. -/
theorem upload_multipart_missing_upload_id_witness :
    upload_multipart envNoUploadId tgtSample =
      ([S3Call.createMultipartUpload "bucket" "key"],
       .error (.Other "Missing upload ID")) :=
  upload_multipart_missing_upload_id envNoUploadId tgtSample rfl

/-- Claim C10: a non-empty read of s bytes uploads a part whose body is
exactly those s bytes and continues the loop on the remaining reads with
the next part number; a 0-byte read (and only that) terminates the loop
normally. -/
theorem uploadPartsLoop_short_read (up : Nat → List Nat → Except Nat (Option String))
    (pn : Nat) (parts : List CompletedPart)
    (body : List Nat) (rest : List (Except Nat (List Nat))) (etag : Option String)
    (hne : body ≠ []) (hok : up pn body = .ok etag) :
    uploadPartsLoop up pn parts (.ok body :: rest) =
      (S3Call.uploadPart pn body ::
         (uploadPartsLoop up (pn + 1)
            (parts ++ [{ e_tag := etag, part_number := some pn }]) rest).1,
       (uploadPartsLoop up (pn + 1)
          (parts ++ [{ e_tag := etag, part_number := some pn }]) rest).2) ∧
    uploadPartsLoop up pn parts (.ok [] :: rest) = ([], .ok parts) := by
  constructor
  · obtain ⟨b, bs, rfl⟩ := List.exists_cons_of_ne_nil hne
    simp only [uploadPartsLoop, List.isEmpty_cons, Bool.false_eq_true, if_false, hok]
  · rfl

/-- Witness for claim C10 at a concrete state of the loop. -/
theorem uploadPartsLoop_short_read_witness :
    uploadPartsLoop envFullSource.partResult 3 [] (.ok [9] :: [.ok []]) =
      (S3Call.uploadPart 3 [9] ::
         (uploadPartsLoop envFullSource.partResult 4
            [{ e_tag := none, part_number := some 3 }] [.ok []]).1,
       (uploadPartsLoop envFullSource.partResult 4
          [{ e_tag := none, part_number := some 3 }] [.ok []]).2) ∧
    uploadPartsLoop envFullSource.partResult 3 [] (.ok [] :: [.ok []]) = ([], .ok []) := by
  have h := uploadPartsLoop_short_read envFullSource.partResult 3 [] [9] [.ok []] none
    (by decide) rfl
  simpa using h

/- ===================== Theorems: full-source multipart upload (chunk lemmas) ===================== -/

/-- Unfolding equation of chunksOf on a non-empty list with positive
part size. -/
theorem chunksOf_cons_eq (P : Nat) (hP : 0 < P) (l : List Nat) (hl : l ≠ []) :
    chunksOf P l = l.take P :: chunksOf P (l.drop P) := by
  match l, hl with
  | a :: rest, _ =>
    rw [chunksOf]
    rw [dif_neg (Nat.pos_iff_ne_zero.mp hP)]

/-- chunksOf of the empty source is the empty chunk list. -/
theorem chunksOf_nil (P : Nat) : chunksOf P ([] : List Nat) = [] := by
  simp [chunksOf]

/-- Fuel-bounded form of chunksOf_flatten. -/
theorem chunksOf_flatten_aux (P : Nat) (hP : 0 < P) :
    ∀ (n : Nat) (l : List Nat), l.length ≤ n → (chunksOf P l).flatten = l := by
  intro n
  induction n with
  | zero =>
    intro l h
    have hl : l = [] := List.eq_nil_of_length_eq_zero (Nat.le_zero.mp h)
    subst hl
    rw [chunksOf_nil]
    rfl
  | succ n ih =>
    intro l hlen
    by_cases hl : l = []
    · subst hl
      rw [chunksOf_nil]
      rfl
    · have hpos : 0 < l.length := List.length_pos.mpr hl
      rw [chunksOf_cons_eq P hP l hl, List.flatten_cons,
        ih (l.drop P) (by simp only [List.length_drop]; omega)]
      exact List.take_append_drop P l

/-- The chunks of a source concatenate back to the source. -/
theorem chunksOf_flatten (P : Nat) (hP : 0 < P) (l : List Nat) :
    (chunksOf P l).flatten = l :=
  chunksOf_flatten_aux P hP l.length l (Nat.le_refl _)

/-- Fuel-bounded form of chunksOf_mem_ne_nil. -/
theorem chunksOf_mem_ne_nil_aux (P : Nat) (hP : 0 < P) :
    ∀ (n : Nat) (l c : List Nat), l.length ≤ n → c ∈ chunksOf P l → c ≠ [] := by
  intro n
  induction n with
  | zero =>
    intro l c h hc
    have hl : l = [] := List.eq_nil_of_length_eq_zero (Nat.le_zero.mp h)
    subst hl
    rw [chunksOf_nil] at hc
    simp at hc
  | succ n ih =>
    intro l c hlen hc
    by_cases hl : l = []
    · subst hl
      rw [chunksOf_nil] at hc
      simp at hc
    · have hpos : 0 < l.length := List.length_pos.mpr hl
      rw [chunksOf_cons_eq P hP l hl] at hc
      rcases List.mem_cons.mp hc with h | h
      · subst h
        simp only [ne_eq, List.take_eq_nil_iff]
        push_neg
        exact ⟨Nat.pos_iff_ne_zero.mp hP, hl⟩
      · exact ih (l.drop P) c (by simp only [List.length_drop]; omega) h

/-- Every chunk of a source is non-empty. -/
theorem chunksOf_mem_ne_nil (P : Nat) (hP : 0 < P) (l : List Nat) (c : List Nat)
    (hc : c ∈ chunksOf P l) : c ≠ [] :=
  chunksOf_mem_ne_nil_aux P hP l.length l c (Nat.le_refl _) hc

/-- Fuel-bounded form of chunksOf_length. -/
theorem chunksOf_length_aux (P : Nat) (hP : 0 < P) :
    ∀ (n : Nat) (l : List Nat), l.length ≤ n → l ≠ [] →
      (chunksOf P l).length = (l.length + P - 1) / P := by
  intro n
  induction n with
  | zero =>
    intro l h hl
    exact absurd (List.eq_nil_of_length_eq_zero (Nat.le_zero.mp h)) hl
  | succ n ih =>
    intro l hlen hl
    have hpos : 0 < l.length := List.length_pos.mpr hl
    rw [chunksOf_cons_eq P hP l hl, List.length_cons]
    by_cases hd : l.drop P = []
    · have hle : l.length ≤ P := by
        have hdl := congrArg List.length hd
        simp only [List.length_drop, List.length_nil] at hdl
        omega
      rw [hd, chunksOf_nil, List.length_nil]
      symm
      apply Nat.div_eq_of_lt_le <;> omega
    · have hlt : P < l.length := by
        by_contra hcon
        push_neg at hcon
        exact hd (List.drop_eq_nil_of_le hcon)
      rw [ih (l.drop P) (by simp only [List.length_drop]; omega) hd, List.length_drop]
      have h1 : l.length - P + P - 1 = l.length - 1 := by omega
      have h2 : l.length + P - 1 = (l.length - 1) + P := by omega
      rw [h1, h2, Nat.add_div_right _ hP]

/-- A non-empty source of S bytes splits into exactly ceil(S/P)
chunks. -/
theorem chunksOf_length (P : Nat) (hP : 0 < P) (l : List Nat) (hl : l ≠ []) :
    (chunksOf P l).length = (l.length + P - 1) / P :=
  chunksOf_length_aux P hP l.length l (Nat.le_refl _) hl

/-- mapFrom preserves length. -/
theorem mapFrom_length (f : Nat → α → β) (l : List α) :
    ∀ i, (mapFrom f i l).length = l.length := by
  induction l with
  | nil => intro i; rfl
  | cons a rest ih => intro i; simp [mapFrom, ih]

/-- natRangeFrom unfolds one element at a time. -/
theorem natRangeFrom_succ (i n : Nat) :
    natRangeFrom i (n + 1) = i :: natRangeFrom (i + 1) n := by
  unfold natRangeFrom
  rw [List.range_succ_eq_map]
  simp only [List.map_cons, List.map_map, Nat.add_zero]
  congr 1
  apply List.map_congr_left
  intro j _
  simp [Function.comp]
  omega

/-- A mapFrom that uses only the index is a map over the index range. -/
theorem mapFrom_eq_range_map (g : Nat → β) (l : List α) :
    ∀ i, mapFrom (fun j _ => g j) i l = (natRangeFrom i l.length).map g := by
  induction l with
  | nil => intro i; rfl
  | cons a rest ih =>
    intro i
    simp only [mapFrom, List.length_cons, natRangeFrom_succ, List.map_cons, ih]

/-- The parts loop over all-successful full reads: every chunk is
uploaded as the next part in order, and the recorded CompletedPart list
extends the accumulator with an entry for each chunk carrying that
part's number and the response ETag. -/
theorem uploadPartsLoop_all_ok (up : Nat → List Nat → Except Nat (Option String))
    (etagF : Nat → Option String)
    (hpart : ∀ pn body, up pn body = .ok (etagF pn))
    (chunks : List (List Nat)) (hne : ∀ c ∈ chunks, c ≠ []) :
    ∀ pn parts, uploadPartsLoop up pn parts (chunks.map Except.ok) =
      (mapFrom (fun i c => S3Call.uploadPart i c) pn chunks,
       .ok (parts ++ mapFrom
         (fun i _ => ({ e_tag := etagF i, part_number := some i } : CompletedPart)) pn chunks)) := by
  induction chunks with
  | nil =>
    intro pn parts
    simp [uploadPartsLoop, mapFrom]
  | cons c cs ih =>
    intro pn parts
    have hc : c ≠ [] := hne c (by simp)
    have hcs : ∀ x ∈ cs, x ≠ [] := fun x hx => hne x (by simp [hx])
    obtain ⟨b, bs, rfl⟩ := List.exists_cons_of_ne_nil hc
    rw [List.map_cons]
    simp only [uploadPartsLoop, List.isEmpty_cons, Bool.false_eq_true, if_false,
      hpart pn (b :: bs), ih hcs (pn + 1), mapFrom]
    simp [List.append_assoc]

/-- Claim C3: for a non-empty source of S bytes whose reads each fill up
to P bytes until exhaustion, with every call succeeding,
upload_multipart uploads exactly ceil(S/P) parts whose bodies are the
consecutive P-sized chunks of the source (so their concatenation is the
source), with part numbers 1..ceil(S/P) in order and no gaps or
duplicates, records the {part-number, ETag} pairs in upload order, and
passes exactly that list to the final complete-multipart call. -/
theorem upload_multipart_full_source
    (env : UploadEnv) (target : PutObjectRequest) (data : List Nat) (P : Nat)
    (uploadId : String) (etagF : Nat → Option String) (out : CompleteMultipartUploadOutput)
    (hS : data ≠ []) (hP : 0 < P)
    (hcreate : env.createResult = .ok (some uploadId))
    (hreads : env.reads = (chunksOf P data).map Except.ok)
    (hpart : ∀ pn body, env.partResult pn body = .ok (etagF pn))
    (hcomplete : ∀ parts, env.completeResult parts = .ok out) :
    (upload_multipart env target).2 = .ok out ∧
    (upload_multipart env target).1 =
      S3Call.createMultipartUpload target.bucket target.key ::
        (mapFrom (fun i c => S3Call.uploadPart i c) 1 (chunksOf P data)
          ++ [S3Call.completeMultipartUpload
                (mapFrom (fun i _ => { e_tag := etagF i, part_number := some i }) 1
                  (chunksOf P data))]) ∧
    (chunksOf P data).length = (data.length + P - 1) / P ∧
    ((mapFrom (fun i _ => ({ e_tag := etagF i, part_number := some i } : CompletedPart)) 1
        (chunksOf P data)).map CompletedPart.part_number)
      = (natRangeFrom 1 ((data.length + P - 1) / P)).map some ∧
    (chunksOf P data).flatten = data := by
  have hne : ∀ c ∈ chunksOf P data, c ≠ [] :=
    fun c hc => chunksOf_mem_ne_nil P hP data c hc
  have hloop := uploadPartsLoop_all_ok env.partResult etagF hpart (chunksOf P data) hne 1 []
  have hstep : upload_multipart_needs_abort_on_error env target uploadId =
      (mapFrom (fun i c => S3Call.uploadPart i c) 1 (chunksOf P data)
         ++ [S3Call.completeMultipartUpload
               (mapFrom (fun i _ => { e_tag := etagF i, part_number := some i }) 1
                 (chunksOf P data))],
       .ok out) := by
    unfold upload_multipart_needs_abort_on_error
    rw [hreads, hloop]
    simp [hcomplete]
  have hmain : upload_multipart env target =
      (S3Call.createMultipartUpload target.bucket target.key ::
         (mapFrom (fun i c => S3Call.uploadPart i c) 1 (chunksOf P data)
           ++ [S3Call.completeMultipartUpload
                 (mapFrom (fun i _ => { e_tag := etagF i, part_number := some i }) 1
                   (chunksOf P data))]),
       .ok out) := by
    unfold upload_multipart
    rw [hcreate]
    simp only [hstep]
  refine ⟨by rw [hmain], by rw [hmain], chunksOf_length P hP data hS, ?_, chunksOf_flatten P hP data⟩
  rw [mapFrom_eq_range_map
    (fun i => ({ e_tag := etagF i, part_number := some i } : CompletedPart)) (chunksOf P data) 1]
  rw [List.map_map, chunksOf_length P hP data hS]
  rfl

/-- Witness for claim C3: a 5-byte source uploaded in chunks of 2. -/
theorem upload_multipart_full_source_witness :
    (upload_multipart envFullSource tgtSample).2 = .ok outSample ∧
    (chunksOf 2 [1, 2, 3, 4, 5]).flatten = [1, 2, 3, 4, 5] ∧
    (chunksOf 2 [1, 2, 3, 4, 5]).length = 3 :=
  ⟨(upload_multipart_full_source envFullSource tgtSample [1, 2, 3, 4, 5] 2 "uid"
      (fun _ => none) outSample (by decide) (by decide) rfl rfl
      (fun _ _ => rfl) (fun _ => rfl)).1,
   (upload_multipart_full_source envFullSource tgtSample [1, 2, 3, 4, 5] 2 "uid"
      (fun _ => none) outSample (by decide) (by decide) rfl rfl
      (fun _ _ => rfl) (fun _ => rfl)).2.2.2.2,
   (upload_multipart_full_source envFullSource tgtSample [1, 2, 3, 4, 5] 2 "uid"
      (fun _ => none) outSample (by decide) (by decide) rfl rfl
      (fun _ _ => rfl) (fun _ => rfl)).2.2.1⟩

/- ===================== Theorems: entry iterator paging ===================== -/

/-- update_objects replaces the buffer with the page entries. -/
theorem update_objects_objects (it : ObjectIter) (resp : ListObjectsV2Output) :
    (it.update_objects resp).objects = resp.entries := by
  unfold ObjectIter.update_objects
  cases resp.next_continuation_token <;> rfl

/-- update_objects marks the iterator exhausted exactly when the
response carries no next continuation token (an already exhausted
iterator stays exhausted). -/
theorem update_objects_exhausted (it : ObjectIter) (resp : ListObjectsV2Output) :
    (it.update_objects resp).exhausted
      = (resp.next_continuation_token.isNone || it.exhausted) := by
  unfold ObjectIter.update_objects
  cases resp.next_continuation_token <;> simp

/-- Claim C2, counterexample: with an empty fetched page that still
carries a continuation token, next_object reports none (and the stream
reports end-of-stream) for that call even though the cursor remains and
a further page holds an entry; the iterator is not exhausted. -/
theorem next_object_empty_page_cx :
    (ObjectIter.next_object (ObjectIter.new "b" none)
        [Except.ok pageEmptyTok, Except.ok pageAFinal]).map
      (fun r => (r.1, r.2.1.exhausted, r.2.2)) =
      .ok (none, false, [Except.ok pageAFinal]) ∧
    (ObjectStream.poll_next (ObjectStream.new "b" none) (some (.ok pageEmptyTok))).1 =
      .ready none ∧
    (ObjectStream.poll_next (ObjectStream.new "b" none)
        (some (.ok pageEmptyTok))).2.iter.exhausted = false ∧
    joinEntries [pageEmptyTok, pageAFinal] = [objA] := by
  refine ⟨rfl, rfl, rfl, rfl⟩


/-- Claim C2, amended: when the buffer is exhausted and the iterator is
not marked exhausted, next_object (and one resolved poll of the stream)
performs exactly one page fetch and returns the head of that page —
reporting none for this call when the fetched page is empty, even if a
continuation cursor remains; the exhausted (end-of-listing) state is
entered exactly when the fetched response carries no next cursor, so a
later call resumes fetching. -/
theorem next_object_single_fetch (it : ObjectIter) (resp : ListObjectsV2Output)
    (rest : List FetchResult)
    (hbuf : it.objects = []) (hexh : it.exhausted = false) :
    it.next_object (.ok resp :: rest) =
      .ok (resp.entries.head?,
           { it.update_objects resp with objects := resp.entries.tail }, rest) ∧
    ((it.update_objects resp).exhausted = true ↔ resp.next_continuation_token = none) ∧
    (∀ o os, resp.entries = o :: os →
      ObjectStream.poll_next { iter := it, fut := none } (some (.ok resp)) =
        (.ready (some (.ok o)),
         { iter := { it.update_objects resp with objects := os }, fut := none })) ∧
    (resp.entries = [] →
      ObjectStream.poll_next { iter := it, fut := none } (some (.ok resp)) =
        (.ready none, { iter := it.update_objects resp, fut := none })) := by
  obtain ⟨req, objs, exh⟩ := it
  change objs = [] at hbuf
  change exh = false at hexh
  subst hbuf
  subst hexh
  refine ⟨?_, ?_, ?_, ?_⟩
  · obtain ⟨contents, token⟩ := resp
    cases contents with
    | none => cases token <;> rfl
    | some l =>
      cases l with
      | nil => cases token <;> rfl
      | cons o os => cases token <;> rfl
  · rw [update_objects_exhausted]
    cases resp.next_continuation_token <;> simp
  · intro o os hres
    obtain ⟨contents, token⟩ := resp
    cases contents with
    | none => simp [ListObjectsV2Output.entries] at hres
    | some l =>
      change l = o :: os at hres
      subst hres
      cases token <;> rfl
  · intro hres
    obtain ⟨contents, token⟩ := resp
    cases contents with
    | none => cases token <;> rfl
    | some l =>
      change l = [] at hres
      subst hres
      cases token <;> rfl

/-- Witness for the amended claim C2 at a concrete iterator and page. -/
theorem next_object_single_fetch_witness :
    ObjectIter.next_object (ObjectIter.new "b" none) [Except.ok pageEmptyTok] =
      .ok (pageEmptyTok.entries.head?,
           { (ObjectIter.new "b" none).update_objects pageEmptyTok with
             objects := pageEmptyTok.entries.tail }, []) :=
  (next_object_single_fetch (ObjectIter.new "b" none) pageEmptyTok [] rfl rfl).1

/-- joinEntries of no pages. -/
theorem joinEntries_nil : joinEntries [] = [] := rfl

/-- joinEntries unfolds one page at a time. -/
theorem joinEntries_cons (p : ListObjectsV2Output) (ps : List ListObjectsV2Output) :
    joinEntries (p :: ps) = p.entries ++ joinEntries ps := by
  simp [joinEntries]

/-- update_objects on a response without a continuation token. -/
theorem update_objects_none (it : ObjectIter) (resp : ListObjectsV2Output)
    (h : resp.next_continuation_token = none) :
    it.update_objects resp = ⟨it.request, resp.entries, true⟩ := by
  unfold ObjectIter.update_objects
  rw [h]

/-- update_objects on a response with a continuation token. -/
theorem update_objects_some (it : ObjectIter) (resp : ListObjectsV2Output) (t : String)
    (h : resp.next_continuation_token = some t) :
    it.update_objects resp =
      ⟨{ it.request with continuation_token := some t }, resp.entries, it.exhausted⟩ := by
  unfold ObjectIter.update_objects
  rw [h]

/-- On an exhausted iterator the last_internal loop immediately returns
the last moved-out entry, whatever the fuel and environment. -/
theorem last_internal_aux_exhausted (fuel : Nat) (objs bufobjs : List Object)
    (req : ListObjectsV2Request) (env : List FetchResult) :
    ObjectIter.last_internal_aux fuel objs ⟨req, bufobjs, true⟩ env = .ok objs.getLast? := by
  cases fuel <;> rfl

/-- Spec of the last_internal loop over a wellformed chain of pages:
starting from an emptied buffer with the moved-out objects accumulator,
the loop returns the last entry of the accumulator followed by all
chained entries. -/
theorem last_internal_aux_spec (pages : List ListObjectsV2Output) (h : Chained pages) :
    ∀ (req : ListObjectsV2Request) (objs : List Object) (fuel : Nat),
      pages.length ≤ fuel →
      ObjectIter.last_internal_aux fuel objs ⟨req, [], false⟩ (pages.map Except.ok) =
        .ok ((objs ++ joinEntries pages).getLast?) := by
  induction h with
  | single p hlast =>
    intro req objs fuel hfuel
    cases fuel with
    | zero => simp at hfuel
    | succ fuel' =>
      have hstep : ObjectIter.last_internal_aux (fuel' + 1) objs ⟨req, [], false⟩
          ([p].map Except.ok) =
          (if p.entries.length > 0 then
            ObjectIter.last_internal_aux fuel' p.entries ⟨req, [], true⟩ []
          else
            ObjectIter.last_internal_aux fuel' objs ⟨req, p.entries, true⟩ []) := by
        simp only [List.map_cons, List.map_nil, ObjectIter.last_internal_aux,
          ObjectIter.next_objects]
        rw [update_objects_none ⟨req, [], false⟩ p hlast]
        simp
      rw [hstep]
      cases hpe : p.entries with
      | nil =>
        simp only [List.length_nil, gt_iff_lt, Nat.lt_irrefl, if_false,
          last_internal_aux_exhausted]
        simp [joinEntries_cons, joinEntries_nil, hpe]
      | cons e es =>
        simp only [List.length_cons, gt_iff_lt, Nat.succ_pos, if_true,
          last_internal_aux_exhausted]
        rw [joinEntries_cons, joinEntries_nil, hpe, List.append_nil,
          List.getLast?_append_of_ne_nil objs (List.cons_ne_nil e es)]
  | cons p rest t htok hrest ih =>
    intro req objs fuel hfuel
    cases fuel with
    | zero => simp at hfuel
    | succ fuel' =>
      have hfuel' : rest.length ≤ fuel' := by
        simp only [List.length_cons] at hfuel
        omega
      have hstep : ObjectIter.last_internal_aux (fuel' + 1) objs ⟨req, [], false⟩
          ((p :: rest).map Except.ok) =
          (if p.entries.length > 0 then
            ObjectIter.last_internal_aux fuel' p.entries
              ⟨{ req with continuation_token := some t }, [], false⟩ (rest.map Except.ok)
          else
            ObjectIter.last_internal_aux fuel' objs
              ⟨{ req with continuation_token := some t }, p.entries, false⟩
              (rest.map Except.ok)) := by
        simp only [List.map_cons, ObjectIter.last_internal_aux, ObjectIter.next_objects]
        rw [update_objects_some ⟨req, [], false⟩ p t htok]
        simp
      rw [hstep]
      cases hpe : p.entries with
      | nil =>
        simp only [List.length_nil, gt_iff_lt, Nat.lt_irrefl, if_false, hpe]
        rw [ih { req with continuation_token := some t } objs fuel' hfuel']
        simp [joinEntries_cons, hpe]
      | cons e es =>
        simp only [List.length_cons, gt_iff_lt, Nat.succ_pos, if_true, hpe]
        rw [ih { req with continuation_token := some t } (e :: es) fuel' hfuel']
        rw [joinEntries_cons, hpe,
          List.getLast?_append_of_ne_nil objs (by simp)]

/-- Claim C6: over a wellformed chain of remaining pages, last() returns
the final entry of the full remaining logical sequence (current buffer
followed by all chained page entries, including when trailing pages are
empty), and none exactly when that sequence is empty; on an already
exhausted iterator it returns the last buffered entry (none if the
buffer is empty) without fetching. -/
theorem last_returns_final_entry (req : ListObjectsV2Request) (objs : List Object)
    (pages : List ListObjectsV2Output) (h : Chained pages) :
    ObjectIter.last ⟨req, objs, false⟩ (pages.map Except.ok) =
      .ok ((objs ++ joinEntries pages).getLast?) ∧
    (∀ env : List FetchResult, ObjectIter.last ⟨req, objs, true⟩ env = .ok objs.getLast?) := by
  constructor
  · exact last_internal_aux_spec pages h req objs _ (by simp)
  · intro env
    show ObjectIter.last_internal_aux env.length objs ⟨req, [], true⟩ env = .ok objs.getLast?
    cases env.length <;> rfl

/-- Witness for claim C6: two chained pages whose last page is empty;
the final entry of the first page is still returned. -/
theorem last_returns_final_entry_witness :
    ObjectIter.last ⟨(ObjectIter.new "b" none).request, [], false⟩
        ([(⟨some [objA, objB], some "t"⟩ : ListObjectsV2Output),
          ⟨some [], none⟩].map Except.ok) =
      .ok (some objB) :=
  (last_returns_final_entry (ObjectIter.new "b" none).request []
      [⟨some [objA, objB], some "t"⟩, ⟨some [], none⟩]
      (Chained.cons _ _ "t" rfl (Chained.single _ rfl))).1

/- ===================== Theorems: nth and repeated advance ===================== -/

/-- A non-empty wellformed chain is in particular a wellformed chain. -/
theorem chained_of_ne (pages : List ListObjectsV2Output) (h : ChainedNE pages) :
    Chained pages := by
  induction h with
  | single p hlast => exact Chained.single p hlast
  | cons p rest t htok _ _ ih => exact Chained.cons p rest t htok ih

/-- Repeated advance on an exhausted iterator walks the remaining
buffer positionally. -/
theorem advanceLast_exhausted (req : ListObjectsV2Request) (env : List FetchResult) :
    ∀ (n : Nat) (objs : List Object),
      advanceLast n ⟨req, objs, true⟩ env = .ok objs[n]? := by
  intro n
  induction n with
  | zero =>
    intro objs
    cases objs with
    | nil => rfl
    | cons o os =>
      show Except.ok (some o) = .ok (o :: os)[0]?
      simp
  | succ m ih =>
    intro objs
    cases objs with
    | nil =>
      show advanceLast m ⟨req, [], true⟩ env = .ok ([] : List Object)[m + 1]?
      rw [ih []]
      simp
    | cons o os =>
      show advanceLast m ⟨req, os, true⟩ env = .ok (o :: os)[m + 1]?
      rw [ih os]
      simp

/-- Repeated advance first consumes the buffer positionally, then
behaves like the empty-buffer iterator. -/
theorem advanceLast_buffer (req : ListObjectsV2Request) (env : List FetchResult)
    (tailSeq : List Object)
    (hbase : ∀ m, advanceLast m ⟨req, [], false⟩ env = .ok tailSeq[m]?) :
    ∀ (objs : List Object) (n : Nat),
      advanceLast n ⟨req, objs, false⟩ env = .ok (objs ++ tailSeq)[n]? := by
  intro objs
  induction objs with
  | nil =>
    intro n
    simpa using hbase n
  | cons o os ih =>
    intro n
    cases n with
    | zero =>
      show Except.ok (some o) = .ok ((o :: os) ++ tailSeq)[0]?
      simp
    | succ m =>
      show advanceLast m ⟨req, os, false⟩ env = .ok ((o :: os) ++ tailSeq)[m + 1]?
      rw [ih m]
      simp

/-- Over a wellformed chain of non-empty pages, the (n+1)-th advance
returns the n-th element of the remaining logical sequence. -/
theorem advanceLast_spec (pages : List ListObjectsV2Output) (h : ChainedNE pages) :
    ∀ (req : ListObjectsV2Request) (objs : List Object) (n : Nat),
      advanceLast n ⟨req, objs, false⟩ (pages.map Except.ok) =
        .ok (objs ++ joinEntries pages)[n]? := by
  induction h with
  | single p hlast =>
    intro req objs n
    refine advanceLast_buffer req _ (joinEntries [p]) ?_ objs n
    intro m
    obtain ⟨contents, token⟩ := p
    change token = none at hlast
    subst hlast
    cases contents with
    | none =>
      cases m with
      | zero => rfl
      | succ m' =>
        show advanceLast m' ⟨req, [], true⟩ [] =
          .ok (joinEntries [⟨none, none⟩])[m' + 1]?
        rw [advanceLast_exhausted]
        simp [joinEntries_cons, joinEntries_nil, ListObjectsV2Output.entries]
    | some l =>
      cases l with
      | nil =>
        cases m with
        | zero => rfl
        | succ m' =>
          show advanceLast m' ⟨req, [], true⟩ [] =
            .ok (joinEntries [⟨some [], none⟩])[m' + 1]?
          rw [advanceLast_exhausted]
          simp [joinEntries_cons, joinEntries_nil, ListObjectsV2Output.entries]
      | cons e es =>
        cases m with
        | zero =>
          show Except.ok (some e) = .ok (joinEntries [⟨some (e :: es), none⟩])[0]?
          simp [joinEntries_cons, joinEntries_nil, ListObjectsV2Output.entries]
        | succ m' =>
          show advanceLast m' ⟨req, es, true⟩ [] =
            .ok (joinEntries [⟨some (e :: es), none⟩])[m' + 1]?
          rw [advanceLast_exhausted]
          simp [joinEntries_cons, joinEntries_nil, ListObjectsV2Output.entries]
  | cons p rest t htok hne hrest ih =>
    intro req objs n
    refine advanceLast_buffer req _ (joinEntries (p :: rest)) ?_ objs n
    intro m
    obtain ⟨contents, token⟩ := p
    change token = some t at htok
    subst htok
    cases contents with
    | none => simp [ListObjectsV2Output.entries] at hne
    | some l =>
      cases l with
      | nil => simp [ListObjectsV2Output.entries] at hne
      | cons e es =>
        cases m with
        | zero =>
          show Except.ok (some e) =
            .ok (joinEntries (⟨some (e :: es), some t⟩ :: rest))[0]?
          simp [joinEntries_cons, ListObjectsV2Output.entries]
        | succ m' =>
          show advanceLast m' ⟨{ req with continuation_token := some t }, es, false⟩
              (rest.map Except.ok) =
            .ok (joinEntries (⟨some (e :: es), some t⟩ :: rest))[m' + 1]?
          rw [ih { req with continuation_token := some t } es m']
          simp [joinEntries_cons, ListObjectsV2Output.entries]

/-- On an exhausted iterator the nth loop exits immediately and indexes
the buffer, whatever the fuel. -/
theorem nth_aux_exhausted (fuel n : Nat) (req : ListObjectsV2Request)
    (objs : List Object) (env : List FetchResult) :
    ObjectIter.nth_aux fuel n ⟨req, objs, true⟩ env =
      .ok (objs[n]?, ⟨req, objs.drop (n + 1), true⟩, env) := by
  cases fuel <;> simp [ObjectIter.nth_aux]

/-- Over a wellformed chain of pages (empty pages allowed anywhere),
nth returns the n-th element of the remaining logical sequence,
whole-page-skipping: while the buffered count is at most n it subtracts
it from n and fetches, then indexes the final buffer. -/
theorem nth_aux_spec (pages : List ListObjectsV2Output) (h : Chained pages) :
    ∀ (req : ListObjectsV2Request) (objs : List Object) (n : Nat) (fuel : Nat),
      pages.length ≤ fuel →
      (ObjectIter.nth_aux fuel n ⟨req, objs, false⟩ (pages.map Except.ok)).map (·.1) =
        .ok (objs ++ joinEntries pages)[n]? := by
  induction h with
  | single p hlast =>
    intro req objs n fuel hfuel
    cases fuel with
    | zero => simp at hfuel
    | succ fuel' =>
      by_cases hcond : objs.length ≤ n
      · have hstep : ObjectIter.nth_aux (fuel' + 1) n ⟨req, objs, false⟩
            ([p].map Except.ok) =
            ObjectIter.nth_aux fuel' (n - objs.length) ⟨req, p.entries, true⟩ [] := by
          simp only [List.map_cons, List.map_nil, ObjectIter.nth_aux,
            ObjectIter.next_objects]
          rw [if_pos ⟨hcond, trivial⟩, update_objects_none ⟨req, objs, false⟩ p hlast]
        rw [hstep, nth_aux_exhausted]
        show Except.ok p.entries[n - objs.length]? =
          Except.ok (objs ++ joinEntries [p])[n]?
        rw [joinEntries_cons, joinEntries_nil, List.append_nil,
          List.getElem?_append_right hcond]
      · have hstep : ObjectIter.nth_aux (fuel' + 1) n ⟨req, objs, false⟩
            ([p].map Except.ok) =
            .ok (objs[n]?, ⟨req, objs.drop (n + 1), false⟩, [p].map Except.ok) := by
          simp only [List.map_cons, List.map_nil, ObjectIter.nth_aux]
          rw [if_neg (fun hc => hcond hc.1)]
        rw [hstep]
        show Except.ok objs[n]? = Except.ok (objs ++ joinEntries [p])[n]?
        rw [List.getElem?_append_left (by omega)]
  | cons p rest t htok hrest ih =>
    intro req objs n fuel hfuel
    cases fuel with
    | zero => simp at hfuel
    | succ fuel' =>
      have hfuel' : rest.length ≤ fuel' := by
        simp only [List.length_cons] at hfuel
        omega
      by_cases hcond : objs.length ≤ n
      · have hstep : ObjectIter.nth_aux (fuel' + 1) n ⟨req, objs, false⟩
            ((p :: rest).map Except.ok) =
            ObjectIter.nth_aux fuel' (n - objs.length)
              ⟨{ req with continuation_token := some t }, p.entries, false⟩
              (rest.map Except.ok) := by
          simp only [List.map_cons, ObjectIter.nth_aux, ObjectIter.next_objects]
          rw [if_pos ⟨hcond, trivial⟩, update_objects_some ⟨req, objs, false⟩ p t htok]
        rw [hstep, ih { req with continuation_token := some t } p.entries
          (n - objs.length) fuel' hfuel']
        rw [joinEntries_cons, List.getElem?_append_right hcond]
      · have hstep : ObjectIter.nth_aux (fuel' + 1) n ⟨req, objs, false⟩
            ((p :: rest).map Except.ok) =
            .ok (objs[n]?, ⟨req, objs.drop (n + 1), false⟩, (p :: rest).map Except.ok) := by
          simp only [List.map_cons, ObjectIter.nth_aux]
          rw [if_neg (fun hc => hcond hc.1)]
        rw [hstep]
        show Except.ok objs[n]? = Except.ok (objs ++ joinEntries (p :: rest))[n]?
        rw [List.getElem?_append_left (by omega)]

/-- Claim C4, counterexample: with a first page that is empty but
carries a cursor and a second page holding one entry, nth(0) on a fresh
iterator returns that entry while the first of one advance calls on an
equivalent fresh iterator returns none — the two disagree. -/
theorem nth_advance_mismatch_cx :
    (ObjectIter.nth (ObjectIter.new "b" none) 0
        [Except.ok pageEmptyTok, Except.ok pageAFinal]).map (·.1) = .ok (some objA) ∧
    advanceLast 0 (ObjectIter.new "b" none)
        [Except.ok pageEmptyTok, Except.ok pageAFinal] = .ok none := by
  exact ⟨rfl, rfl⟩

/-- Claim C4, amended: over page sequences whose non-final pages are
all non-empty (no fetch errors), nth(i) on a fresh iterator equals the
result of the (i+1)-th advance call on an equivalent fresh iterator,
both being the i-th element of the listing; nth whole-page-skips,
subtracting the buffered count and fetching while it is at most n,
including across several fetches and at exact page boundaries. -/
theorem nth_matches_repeated_advance (req : ListObjectsV2Request)
    (pages : List ListObjectsV2Output) (i : Nat) (h : ChainedNE pages) :
    (ObjectIter.nth ⟨req, [], false⟩ i (pages.map Except.ok)).map (·.1) =
      .ok (joinEntries pages)[i]? ∧
    advanceLast i ⟨req, [], false⟩ (pages.map Except.ok) = .ok (joinEntries pages)[i]? ∧
    (ObjectIter.nth ⟨req, [], false⟩ i (pages.map Except.ok)).map (·.1) =
      advanceLast i ⟨req, [], false⟩ (pages.map Except.ok) := by
  have h1 := nth_aux_spec pages (chained_of_ne pages h) req [] i
    ((pages.map (Except.ok : ListObjectsV2Output → FetchResult)).length) (by simp)
  have h2 := advanceLast_spec pages h req [] i
  simp only [List.nil_append] at h1 h2
  exact ⟨h1, h2, h1.trans h2.symm⟩

/-- Witness for the amended claim C4: i = 2 lands exactly on the
boundary between a 2-entry page and its successor page. -/
theorem nth_matches_repeated_advance_witness :
    (ObjectIter.nth ⟨(ObjectIter.new "b" none).request, [], false⟩ 2
        ([(⟨some [objA, objB], some "t"⟩ : ListObjectsV2Output),
          ⟨some [objC], none⟩].map Except.ok)).map (·.1) = .ok (some objC) ∧
    advanceLast 2 ⟨(ObjectIter.new "b" none).request, [], false⟩
        ([(⟨some [objA, objB], some "t"⟩ : ListObjectsV2Output),
          ⟨some [objC], none⟩].map Except.ok) = .ok (some objC) :=
  ⟨(nth_matches_repeated_advance (ObjectIter.new "b" none).request
      [⟨some [objA, objB], some "t"⟩, ⟨some [objC], none⟩] 2
      (ChainedNE.cons _ _ "t" rfl (by simp [ListObjectsV2Output.entries])
        (ChainedNE.single _ rfl))).1,
   (nth_matches_repeated_advance (ObjectIter.new "b" none).request
      [⟨some [objA, objB], some "t"⟩, ⟨some [objC], none⟩] 2
      (ChainedNE.cons _ _ "t" rfl (by simp [ListObjectsV2Output.entries])
        (ChainedNE.single _ rfl))).2.1⟩

/- ===================== Theorems: full traversal via repeated advance ===================== -/

/-- Draining an exhausted iterator yields exactly the remaining
buffer. -/
theorem drainAll_exhausted (req : ListObjectsV2Request) (env : List FetchResult) :
    ∀ (fuel : Nat) (objs : List Object), objs.length < fuel →
      drainAll fuel ⟨req, objs, true⟩ env = .ok objs := by
  intro fuel
  induction fuel with
  | zero =>
    intro objs h
    omega
  | succ f ih =>
    intro objs h
    cases objs with
    | nil => rfl
    | cons o os =>
      show (drainAll f ⟨req, os, true⟩ env).map (o :: ·) = .ok (o :: os)
      rw [ih os (by simp only [List.length_cons] at h; omega)]
      rfl

/-- Draining first yields the buffer, then continues like the
empty-buffer iterator. -/
theorem drainAll_buffer (req : ListObjectsV2Request) (env : List FetchResult) (exh : Bool)
    (result : List Object) (fuel0 : Nat)
    (hbase : ∀ f, fuel0 ≤ f → drainAll f ⟨req, [], exh⟩ env = .ok result) :
    ∀ (objs : List Object) (f : Nat), fuel0 + objs.length ≤ f →
      drainAll f ⟨req, objs, exh⟩ env = .ok (objs ++ result) := by
  intro objs
  induction objs with
  | nil =>
    intro f hf
    simpa using hbase f (by omega)
  | cons o os ih =>
    intro f hf
    cases f with
    | zero =>
      simp only [List.length_cons] at hf
      omega
    | succ f' =>
      show (drainAll f' ⟨req, os, exh⟩ env).map (o :: ·) = .ok ((o :: os) ++ result)
      rw [ih f' (by simp only [List.length_cons] at hf; omega)]
      rfl

/-- A fuel amount sufficient to drain a page chain completely. -/
def drainFuel (pages : List ListObjectsV2Output) : Nat :=
  (joinEntries pages).length + pages.length + 1

/-- Over a wellformed chain of non-empty pages, draining a fresh
iterator by repeated next_object calls yields exactly all entries, in
delivery order. -/
theorem drainAll_spec (pages : List ListObjectsV2Output) (h : ChainedNE pages) :
    ∀ (req : ListObjectsV2Request) (f : Nat), drainFuel pages ≤ f →
      drainAll f ⟨req, [], false⟩ (pages.map Except.ok) = .ok (joinEntries pages) := by
  induction h with
  | single p hlast =>
    intro req f hf
    obtain ⟨contents, token⟩ := p
    change token = none at hlast
    subst hlast
    cases f with
    | zero => simp [drainFuel] at hf
    | succ f' =>
      cases contents with
      | none => rfl
      | some l =>
        cases l with
        | nil => rfl
        | cons e es =>
          show (drainAll f' ⟨req, es, true⟩ []).map (e :: ·) =
            .ok (joinEntries [⟨some (e :: es), none⟩])
          have hlen : es.length < f' := by
            simp [drainFuel, joinEntries_cons, joinEntries_nil,
              ListObjectsV2Output.entries] at hf
            omega
          rw [drainAll_exhausted req [] f' es hlen]
          simp [joinEntries_cons, joinEntries_nil, ListObjectsV2Output.entries]
          rfl
  | cons p rest t htok hne hrest ih =>
    intro req f hf
    obtain ⟨contents, token⟩ := p
    change token = some t at htok
    subst htok
    cases contents with
    | none => simp [ListObjectsV2Output.entries] at hne
    | some l =>
      cases l with
      | nil => simp [ListObjectsV2Output.entries] at hne
      | cons e es =>
        cases f with
        | zero => simp [drainFuel] at hf
        | succ f' =>
          show (drainAll f' ⟨{ req with continuation_token := some t }, es, false⟩
              (rest.map Except.ok)).map (e :: ·) =
            .ok (joinEntries (⟨some (e :: es), some t⟩ :: rest))
          have hfuel : drainFuel rest + es.length ≤ f' := by
            simp [drainFuel, joinEntries_cons, ListObjectsV2Output.entries,
              List.length_append] at hf ⊢
            omega
          rw [drainAll_buffer { req with continuation_token := some t }
            (rest.map Except.ok) false (joinEntries rest) (drainFuel rest)
            (fun g hg => ih { req with continuation_token := some t } g hg) es f' hfuel]
          simp [joinEntries_cons, ListObjectsV2Output.entries]
          rfl

/-- Claim C5, counterexample: with the single stored entry delivered on
the second page after an empty-but-cursored first page, repeated
advance calls stop at the first none having yielded nothing, missing
the entry. -/
theorem drain_misses_entry_cx :
    drainAll 5 (ObjectIter.new "b" none)
        [Except.ok pageEmptyTok, Except.ok pageAFinal] = .ok [] ∧
    joinEntries [pageEmptyTok, pageAFinal] = [objA] ∧
    ([] : List Object) ≠ [objA] := by
  exact ⟨rfl, rfl, by decide⟩

/-- Claim C5, amended: for entries delivered in ascending key order
across pages each of which (except possibly the final one) is
non-empty, repeatedly calling advance until it returns none yields
exactly the stored entries, each once, in the delivered (ascending)
order, regardless of where the page boundaries fall. -/
theorem drain_yields_all_entries (req : ListObjectsV2Request)
    (pages : List ListObjectsV2Output) (h : ChainedNE pages)
    (hsorted : (joinEntries pages).Pairwise keyLe) :
    drainAll (drainFuel pages) ⟨req, [], false⟩ (pages.map Except.ok) =
      .ok (joinEntries pages) ∧
    (joinEntries pages).Pairwise keyLe :=
  ⟨drainAll_spec pages h req _ (Nat.le_refl _), hsorted⟩

/-- Witness for the amended claim C5: three entries split 1 + 2 across
two pages come out exactly once each, in order. -/
theorem drain_yields_all_entries_witness :
    drainAll (drainFuel [(⟨some [objA], some "t"⟩ : ListObjectsV2Output),
        ⟨some [objB, objC], none⟩]) ⟨(ObjectIter.new "b" none).request, [], false⟩
      ([(⟨some [objA], some "t"⟩ : ListObjectsV2Output),
        ⟨some [objB, objC], none⟩].map Except.ok) = .ok [objA, objB, objC] :=
  (drain_yields_all_entries (ObjectIter.new "b" none).request
      [⟨some [objA], some "t"⟩, ⟨some [objB, objC], none⟩]
      (ChainedNE.cons _ _ "t" rfl (by simp [ListObjectsV2Output.entries])
        (ChainedNE.single _ rfl))
      (by decide)).1

/- ===================== Theorems: object fetch overlay ===================== -/

/-- Claim C8: when the inner iterator yields an entry, retrieve_next
fails with the Other "response is missing key" error and issues no
get-object call if the entry has no key; if the entry has a key, exactly
one get-object call for that key is issued and, on its success, the
(key, object) pair is returned. -/
theorem retrieve_next_key_handling (g : GetObjectIter) (env : List FetchResult)
    (genv : GetEnv) (entry : Object) (it2 : ObjectIter) (env2 : List FetchResult)
    (hnext : g.inner.next_object env = .ok (some entry, it2, env2)) :
    (entry.key = none →
      g.retrieve_next env genv =
        ([], .error (.Other "response is missing key"), { g with inner := it2 }, env2)) ∧
    (∀ k o, entry.key = some k → genv { bucket := g.bucket, key := k } = .ok o →
      g.retrieve_next env genv =
        ([{ bucket := g.bucket, key := k }], .ok (some (k, o)),
         { g with inner := it2 }, env2)) := by
  constructor
  · intro hkey
    simp only [GetObjectIter.retrieve_next, hnext, GetObjectIter.retrieve, hkey]
  · intro k o hkey hget
    simp only [GetObjectIter.retrieve_next, hnext, GetObjectIter.retrieve, hkey, hget]

/-- A sample get-object environment echoing the requested key. -/
def genvSample : GetEnv := fun r => .ok { body := some [1], e_tag := some r.key }

/-- Witness for claim C8: a keyless entry produces the missing-key
error with no get call; a keyed entry produces one get call and the
(key, object) pair. -/
theorem retrieve_next_key_handling_witness :
    GetObjectIter.retrieve_next (GetObjectIter.new "b" none)
        [Except.ok (⟨some [objNoKey], none⟩ : ListObjectsV2Output)] genvSample =
      ([], .error (.Other "response is missing key"),
       { GetObjectIter.new "b" none with inner := ⟨(ObjectIter.new "b" none).request, [], true⟩ },
       []) ∧
    GetObjectIter.retrieve_next (GetObjectIter.new "b" none)
        [Except.ok (⟨some [objA], none⟩ : ListObjectsV2Output)] genvSample =
      ([{ bucket := "b", key := "a" }],
       .ok (some ("a", { body := some [1], e_tag := some "a" })),
       { GetObjectIter.new "b" none with inner := ⟨(ObjectIter.new "b" none).request, [], true⟩ },
       []) :=
  ⟨(retrieve_next_key_handling (GetObjectIter.new "b" none)
      [Except.ok (⟨some [objNoKey], none⟩ : ListObjectsV2Output)] genvSample objNoKey
      ⟨(ObjectIter.new "b" none).request, [], true⟩ [] rfl).1 rfl,
   (retrieve_next_key_handling (GetObjectIter.new "b" none)
      [Except.ok (⟨some [objA], none⟩ : ListObjectsV2Output)] genvSample objA
      ⟨(ObjectIter.new "b" none).request, [], true⟩ [] rfl).2
     "a" { body := some [1], e_tag := some "a" } rfl rfl⟩

/- ===================== Theorems: single in-flight fetch invariant ===================== -/


/- ===================== Theorems: single in-flight fetch invariant ===================== -/

/-- pollFut1 preserves the single-in-flight invariant. -/
theorem pollFut1_inv (s : GetObjectStream) (oc : GOSOracle) (h : GOSInv s) :
    GOSInv (s.pollFut1 oc).2 := by
  obtain ⟨iter, next, key, fut0, fut1⟩ := s
  obtain ⟨pg, ob⟩ := oc
  cases fut0 with
  | some f0 =>
    cases fut1 <;> exact h
  | none =>
    cases fut1 with
    | none => exact h
    | some f1 =>
      cases ob with
      | none => exact h
      | some res =>
        cases res with
        | error e =>
          exact show GOSInv ⟨iter, next, key, none, none⟩ from ⟨by simp, by simp⟩
        | ok o =>
          cases key with
          | some k =>
            exact show GOSInv ⟨iter, next, none, none, none⟩ from ⟨by simp, by simp⟩
          | none =>
            exact show GOSInv ⟨iter, next, none, none, none⟩ from ⟨by simp, by simp⟩

/-- pollFut1 never touches the page-fetch slot. -/
theorem pollFut1_fut0 (s : GetObjectStream) (oc : GOSOracle) :
    (s.pollFut1 oc).2.fut0 = s.fut0 := by
  obtain ⟨iter, next, key, fut0, fut1⟩ := s
  obtain ⟨pg, ob⟩ := oc
  cases fut0 with
  | some f0 => cases fut1 <;> rfl
  | none =>
    cases fut1 with
    | none => rfl
    | some f1 =>
      cases ob with
      | none => rfl
      | some res =>
        cases res with
        | error e => rfl
        | ok o => cases key <;> rfl

/-- pollGet preserves the single-in-flight invariant when no page fetch
is pending. -/
theorem pollGet_inv (s : GetObjectStream) (oc : GOSOracle) (h : GOSInv s)
    (hfut0 : s.fut0 = none) : GOSInv (s.pollGet oc).2 := by
  obtain ⟨iter, next, key, fut0, fut1⟩ := s
  change fut0 = none at hfut0
  subst hfut0
  cases next with
  | none => exact pollFut1_inv ⟨iter, none, key, none, fut1⟩ oc h
  | some nxt =>
    obtain ⟨nk, ne, ns, nm⟩ := nxt
    cases nk with
    | none =>
      exact show GOSInv ⟨iter, none, key, none, fut1⟩ from ⟨by simp, fun hc => rfl⟩
    | some k =>
      exact pollFut1_inv ⟨iter, none, some k, none, some ⟨iter.bucket, k⟩⟩ oc
        ⟨by simp, fun hc => rfl⟩

/-- pollGet never touches the page-fetch slot. -/
theorem pollGet_fut0 (s : GetObjectStream) (oc : GOSOracle) :
    (s.pollGet oc).2.fut0 = s.fut0 := by
  obtain ⟨iter, next, key, fut0, fut1⟩ := s
  cases next with
  | none => exact pollFut1_fut0 ⟨iter, none, key, fut0, fut1⟩ oc
  | some nxt =>
    obtain ⟨nk, ne, ns, nm⟩ := nxt
    cases nk with
    | none => rfl
    | some k =>
      exact pollFut1_fut0 ⟨iter, none, some k, fut0, some ⟨iter.bucket, k⟩⟩ oc

/-- pollTail preserves the single-in-flight invariant. -/
theorem pollTail_inv (s : GetObjectStream) (oc : GOSOracle) (h : GOSInv s) :
    GOSInv (s.pollTail oc).2 := by
  obtain ⟨iter, next, key, fut0, fut1⟩ := s
  obtain ⟨pg, ob⟩ := oc
  cases fut0 with
  | none => exact pollGet_inv ⟨iter, next, key, none, fut1⟩ ⟨pg, ob⟩ h rfl
  | some f0 =>
    cases fut1 with
    | some f1 => exact h
    | none =>
      cases pg with
      | none => exact h
      | some res =>
        cases res with
        | error e =>
          exact show GOSInv ⟨iter, next, key, none, none⟩ from ⟨by simp, by simp⟩
        | ok resp =>
          show GOSInv
            (match (iter.inner.update_objects resp).objects with
             | n :: rest =>
               GetObjectStream.pollGet
                 { iter := { iter with inner :=
                     { iter.inner.update_objects resp with objects := rest } },
                   next := some n, key := key, fut0 := none, fut1 := none }
                 ⟨some (Except.ok resp), ob⟩
             | [] =>
               (PollOut.ready none,
                { iter := { iter with inner := iter.inner.update_objects resp },
                  next := next, key := key, fut0 := none, fut1 := none })).2
          cases (iter.inner.update_objects resp).objects with
          | nil =>
            exact show GOSInv ⟨{ iter with inner := iter.inner.update_objects resp },
              next, key, none, none⟩ from ⟨by simp, by simp⟩
          | cons n rest =>
            exact pollGet_inv _ _ ⟨by simp, fun hc => by simp at hc⟩ rfl

/-- One poll step of GetObjectStream preserves the single-in-flight
invariant, whatever the futures resolve to. -/
theorem gos_poll_preserves_inv (s : GetObjectStream) (oc : GOSOracle) (h : GOSInv s) :
    GOSInv (s.poll_next oc).2 := by
  obtain ⟨iter, next, key, fut0, fut1⟩ := s
  cases fut0 with
  | some f0 => exact pollTail_inv ⟨iter, next, key, some f0, fut1⟩ oc h
  | none =>
    cases fut1 with
    | some f1 => exact pollTail_inv ⟨iter, next, key, none, some f1⟩ oc h
    | none =>
      obtain ⟨⟨ireq, iobjs, iexh⟩, bucket⟩ := iter
      cases iobjs with
      | cons o os =>
        exact pollTail_inv ⟨⟨⟨ireq, os, iexh⟩, bucket⟩, some o, key, none, none⟩ oc
          ⟨by simp, fun hc => by simp at hc⟩
      | nil =>
        cases iexh with
        | true => exact h
        | false =>
          exact pollTail_inv
            ⟨⟨⟨ireq, [], false⟩, bucket⟩, next, key, some ireq, none⟩ oc
            ⟨by simp, fun hc => by simp at hc⟩

/-- A freshly created GetObjectStream satisfies the single-in-flight
invariant. -/
theorem gos_new_inv (bucket : String) (pfx : Option String) :
    GOSInv (GetObjectStream.new bucket pfx) :=
  ⟨by simp [GetObjectStream.new], fun hc => by simp [GetObjectStream.new] at hc⟩

/-- A pending page fetch of GetObjectStream is never replaced by a new
one within a poll: it either stays pending or is consumed. -/
theorem gos_poll_fut0_stable (s : GetObjectStream) (oc : GOSOracle)
    (r : ListObjectsV2Request) (h : s.fut0 = some r) :
    (GetObjectStream.poll_next s oc).2.fut0 = none ∨
    (GetObjectStream.poll_next s oc).2.fut0 = some r := by
  obtain ⟨iter, next, key, fut0, fut1⟩ := s
  obtain ⟨pg, ob⟩ := oc
  change fut0 = some r at h
  subst h
  cases fut1 with
  | some f1 => right; rfl
  | none =>
    cases pg with
    | none => right; rfl
    | some res =>
      cases res with
      | error e => left; rfl
      | ok resp =>
        left
        show (match (iter.inner.update_objects resp).objects with
           | n :: rest =>
             GetObjectStream.pollGet
               { iter := { iter with inner :=
                   { iter.inner.update_objects resp with objects := rest } },
                 next := some n, key := key, fut0 := none, fut1 := none }
               ⟨some (Except.ok resp), ob⟩
           | [] =>
             (PollOut.ready none,
              { iter := { iter with inner := iter.inner.update_objects resp },
                next := next, key := key, fut0 := none, fut1 := none })).2.fut0 = none
        cases (iter.inner.update_objects resp).objects with
        | nil => rfl
        | cons n rest =>
          rw [pollGet_fut0]

/-- A pending fetch of ObjectStream is never replaced within a poll: it
either stays pending or is consumed; a new fetch is started only from
the idle state. -/
theorem os_poll_no_new_fetch (s : ObjectStream) (oracle : Option FetchResult)
    (r : ListObjectsV2Request) (h : s.fut = some r) :
    (ObjectStream.poll_next s oracle).2.fut = none ∨
    (ObjectStream.poll_next s oracle).2.fut = some r := by
  obtain ⟨iter, fut⟩ := s
  change fut = some r at h
  subst h
  cases oracle with
  | none => right; rfl
  | some res =>
    cases res with
    | error e => left; rfl
    | ok resp =>
      left
      show (match (iter.update_objects resp).objects with
         | o :: os =>
           (PollOut.ready (some (Except.ok o)),
            ({ iter := { iter.update_objects resp with objects := os }, fut := none }
              : ObjectStream))
         | [] =>
           (PollOut.ready none,
            ({ iter := iter.update_objects resp, fut := none } : ObjectStream))).2.fut = none
      cases (iter.update_objects resp).objects with
      | nil => rfl
      | cons o os => rfl

/-- Claim C9: at most one fetch is in flight per stream.  For
GetObjectStream the invariant that a page fetch and a get-object fetch
are never simultaneously pending holds initially and is preserved by
every poll step (with the auxiliary fact that a pending get-object
fetch owns the taken entry); pending fetches are never replaced, for
either stream, so a new fetch starts only from an idle slot. -/
theorem stream_single_fetch_invariant :
    (∀ (s : GetObjectStream) (oc : GOSOracle), GOSInv s →
      GOSInv (GetObjectStream.poll_next s oc).2) ∧
    (∀ (bucket : String) (pfx : Option String), GOSInv (GetObjectStream.new bucket pfx)) ∧
    (∀ (s : GetObjectStream) (oc : GOSOracle) (r : ListObjectsV2Request),
      s.fut0 = some r →
      (GetObjectStream.poll_next s oc).2.fut0 = none ∨
      (GetObjectStream.poll_next s oc).2.fut0 = some r) ∧
    (∀ (s : ObjectStream) (oracle : Option FetchResult) (r : ListObjectsV2Request),
      s.fut = some r →
      (ObjectStream.poll_next s oracle).2.fut = none ∨
      (ObjectStream.poll_next s oracle).2.fut = some r) :=
  ⟨gos_poll_preserves_inv, gos_new_inv, gos_poll_fut0_stable, os_poll_no_new_fetch⟩

/-- Witness for claim C9 at concrete stream states. -/
theorem stream_single_fetch_invariant_witness :
    GOSInv (GetObjectStream.poll_next (GetObjectStream.new "b" none) ⟨none, none⟩).2 ∧
    ((ObjectStream.poll_next ⟨ObjectIter.new "b" none,
        some (ObjectIter.new "b" none).request⟩ none).2.fut = none ∨
     (ObjectStream.poll_next ⟨ObjectIter.new "b" none,
        some (ObjectIter.new "b" none).request⟩ none).2.fut =
       some (ObjectIter.new "b" none).request) :=
  ⟨stream_single_fetch_invariant.1 (GetObjectStream.new "b" none) ⟨none, none⟩
     (gos_new_inv "b" none),
   stream_single_fetch_invariant.2.2.2 ⟨ObjectIter.new "b" none,
     some (ObjectIter.new "b" none).request⟩ none (ObjectIter.new "b" none).request rfl⟩
